import Mathlib

/-
Verification of the Bandwatch channel-activity pipeline
(`src/unnamed/part_000`, the Wi-Fi busy-score scanner).

The aggregation pipeline is shallowly embedded:
  * machine integers become `Nat` with explicit `% 2^w` where the C type
    can overflow (`uint32_t` counters, `uint16_t` counters);
  * the float score/EMA arithmetic is modelled over `ℝ` with `Real.log`
    standing for `logf`/`log1pf`;
  * the fixed `uint16_t macHashes[24]` array with fill pointer `macFill`
    is modelled as the list of its filled prefix (the source scans and
    appends only within `[0, macFill)`);
  * the interrupt-context producer and the cooperative consumer are
    modelled as an event trace in which each critical section of the
    source is one atomic event.
-/

namespace Bandwatch

/-- Dwell per channel in milliseconds (source: `kDwellMs = 260`). -/
def kDwellMs : ℕ := 260

/-- Number of 2.4 GHz channels swept (source: `kChannelCount = 13`). -/
def kChannelCount : ℕ := 13

/-- Signal-strength threshold for a "strong" frame in dBm
(source: `kStrongThresholdDbm = -65`). -/
def kStrongThresholdDbm : ℤ := -65

/-- Capacity of the best-effort unique-transmitter table
(source: `kUniqueSlots = 24`). -/
def kUniqueSlots : ℕ := 24

/-- EMA smoothing constant (source: `kBusyEmaAlpha = 0.22f`). -/
noncomputable def kBusyEmaAlpha : ℝ := 0.22

/-- Size in bytes of `wifi_ieee80211_mac_hdr_t`
(2 + 2 + 6 + 6 + 6 + 2 + 6 = 30, all members 2-byte aligned). -/
def kHdrSize : ℕ := 30

/-- Modulus of a `uint32_t` counter. -/
def U32 : ℕ := 2 ^ 32

/-- Modulus of a `uint16_t` counter. -/
def U16 : ℕ := 2 ^ 16

/-- Snapshot of one dwell window's counters (source struct `ChannelMetrics`;
`frames`/`bytes` are `uint32_t`, `strong`/`unique` are `uint16_t`). -/
structure ChannelMetrics where
  frames : ℕ
  bytes : ℕ
  strong : ℕ
  unique : ℕ
deriving DecidableEq

/-- Source `clamp01`: clamp a float into `[0, 1]` by two comparisons. -/
noncomputable def clamp01 (v : ℝ) : ℝ :=
  if v < 0 then 0 else if v > 1 then 1 else v

/-- Source `computeBusyScore`, with the configured dwell duration passed
explicitly (the source reads the constant `kDwellMs`; `finishDwell` below
instantiates it).  `logf`/`log1pf` are modelled by `Real.log`. -/
noncomputable def computeBusyScore (dwellMs : ℝ) (m : ChannelMetrics) : ℝ :=
  let dwellSec : ℝ := dwellMs / 1000
  let pps : ℝ := (m.frames : ℝ) / dwellSec
  let bps : ℝ := (m.bytes : ℝ) / dwellSec
  let strongRatio : ℝ := if 0 < m.frames then (m.strong : ℝ) / (m.frames : ℝ) else 0
  let ppsScore : ℝ := clamp01 (Real.log (1 + pps) / Real.log 600)
  let bpsScore : ℝ := clamp01 (Real.log (1 + bps) / Real.log 50000)
  let uniqueScore : ℝ := clamp01 (Real.log (1 + (m.unique : ℝ)) / Real.log 20)
  let raw : ℝ := 0.40 * ppsScore + 0.30 * bpsScore + 0.20 * strongRatio + 0.10 * uniqueScore
  clamp01 raw * 100

/-- Score formula written out from the spec's ScoreEngine section (section 4.3):
`raw = clamp01(0.40·ppsScore + 0.30·bpsScore + 0.20·strongRatio +
0.10·uniqueScore) × 100` with `pps = frameCount/dwellSec`,
`bps = byteCount/dwellSec`, the log-compressed saturating terms, and
`strongRatio = strongFrameCount/frameCount` when `frameCount > 0` else 0.
Kept separate from `computeBusyScore` so the refinement claim compares the
code's function against the spec's words. -/
noncomputable def scoreSpec (dwellDurationMs : ℝ) (m : ChannelMetrics) : ℝ :=
  let dwellSec : ℝ := dwellDurationMs / 1000
  let pps : ℝ := (m.frames : ℝ) / dwellSec
  let bps : ℝ := (m.bytes : ℝ) / dwellSec
  let strongRatio : ℝ := if 0 < m.frames then (m.strong : ℝ) / (m.frames : ℝ) else 0
  let ppsScore : ℝ := clamp01 (Real.log (1 + pps) / Real.log 600)
  let bpsScore : ℝ := clamp01 (Real.log (1 + bps) / Real.log 50000)
  let uniqueScore : ℝ := clamp01 (Real.log (1 + (m.unique : ℝ)) / Real.log 20)
  clamp01 (0.40 * ppsScore + 0.30 * bpsScore + 0.20 * strongRatio + 0.10 * uniqueScore) * 100

lemma clamp01_nonneg (v : ℝ) : 0 ≤ clamp01 v := by
  unfold clamp01
  split_ifs with h1 h2
  · exact le_rfl
  · norm_num
  · linarith [not_lt.mp h1]

lemma clamp01_le_one (v : ℝ) : clamp01 v ≤ 1 := by
  unfold clamp01
  split_ifs with h1 h2
  · norm_num
  · exact le_rfl
  · linarith [not_lt.mp h2]

lemma clamp01_pos (v : ℝ) (h : 0 < v) : 0 < clamp01 v := by
  unfold clamp01
  split_ifs with h1 h2
  · linarith
  · norm_num
  · exact h

lemma clamp01_zero : clamp01 0 = 0 := by
  norm_num [clamp01]

/-- C4: for every metrics input and every positive dwell duration, the
code's score function equals the spec's formula (it is a pure function of
its arguments, hence deterministic), and its value lies in `[0, 100]`. -/
theorem c4_score_refines_spec (dwellMs : ℝ) (m : ChannelMetrics) (hd : 0 < dwellMs) :
    computeBusyScore dwellMs m = scoreSpec dwellMs m ∧
    0 ≤ computeBusyScore dwellMs m ∧ computeBusyScore dwellMs m ≤ 100 := by
  refine ⟨rfl, ?_, ?_⟩
  · simp only [computeBusyScore]
    exact mul_nonneg (clamp01_nonneg _) (by norm_num)
  · simp only [computeBusyScore]
    exact le_trans (mul_le_mul_of_nonneg_right (clamp01_le_one _) (by norm_num)) (by norm_num)

/-- C4 witness: the theorem instantiated at the configured dwell (260 ms)
and the spec's busy-scenario metrics. -/
theorem c4_score_refines_spec_witness :
    computeBusyScore 260 ⟨130, 65000, 26, 5⟩ = scoreSpec 260 ⟨130, 65000, 26, 5⟩ ∧
    0 ≤ computeBusyScore 260 ⟨130, 65000, 26, 5⟩ ∧
    computeBusyScore 260 ⟨130, 65000, 26, 5⟩ ≤ 100 :=
  c4_score_refines_spec 260 ⟨130, 65000, 26, 5⟩ (by norm_num)

/-- C2 counterexample: the claim says `frameCount == 0` yields exactly 0
"regardless of the values of byteCount, strongFrameCount, and uniqueCount",
but with `frames = 0` and `bytes = 50000` the `bps` term alone makes the
score positive (the source computes `0.30 * bpsScore * 100 = 30`). -/
theorem c2_counterexample : computeBusyScore 260 ⟨0, 50000, 0, 0⟩ ≠ 0 := by
  have hds : (0:ℝ) < 260 / 1000 := by norm_num
  have hbps : (0:ℝ) < (50000 : ℝ) / (260 / 1000) := by positivity
  have hlog1 : 0 < Real.log (1 + (50000 : ℝ) / (260 / 1000)) := by
    apply Real.log_pos
    linarith
  have hlog2 : 0 < Real.log 50000 := Real.log_pos (by norm_num)
  have hbs : 0 < clamp01 (Real.log (1 + (50000 : ℝ) / (260 / 1000)) / Real.log 50000) :=
    clamp01_pos _ (div_pos hlog1 hlog2)
  have hres : 0 < computeBusyScore 260 ⟨0, 50000, 0, 0⟩ := by
    simp only [computeBusyScore, Nat.cast_zero, Nat.cast_ofNat, zero_div, add_zero,
      zero_add, Real.log_one, lt_irrefl, if_false, clamp01_zero, mul_zero]
    have hraw : 0 < 0.30 * clamp01 (Real.log (1 + (50000 : ℝ) / (260 / 1000)) / Real.log 50000) :=
      mul_pos (by norm_num) hbs
    exact mul_pos (clamp01_pos _ hraw) (by norm_num)
  exact ne_of_gt hres

/-- C2 as amended: the score is exactly 0 whenever `frameCount`, `byteCount`
and `uniqueCount` are all 0 (regardless of `strongFrameCount`) — which is the
case for every snapshot the accumulator can actually produce with
`frameCount = 0`, since `byteCount` and `uniqueCount` only grow when a frame
is counted. -/
theorem c2_zero_metrics_score (dwellMs : ℝ) (m : ChannelMetrics)
    (hd : 0 < dwellMs) (hf : m.frames = 0) (hb : m.bytes = 0) (hu : m.unique = 0) :
    computeBusyScore dwellMs m = 0 := by
  simp only [computeBusyScore, hf, hb, hu, Nat.cast_zero, zero_div, add_zero,
    Real.log_one, lt_irrefl, if_false, clamp01_zero]
  norm_num [clamp01_zero]

/-- C2 amended-claim witness: instantiated at the configured dwell with a
nonzero `strongFrameCount`, showing `strong` really is irrelevant. -/
theorem c2_zero_metrics_score_witness : computeBusyScore 260 ⟨0, 0, 7, 0⟩ = 0 :=
  c2_zero_metrics_score 260 ⟨0, 0, 7, 0⟩ (by norm_num) rfl rfl rfl

/-- Per-channel state (source struct `ChannelState`): last snapshot, last raw
score (`busyCurrent`), smoothed score (`busyEma`), and the first-finalize
flag `hasData`. -/
structure ChannelState where
  metrics : ChannelMetrics
  busyCurrent : ℝ
  busyEma : ℝ
  hasData : Bool

/-- Channel-state update performed by the tail of the source's `finishDwell`
(lines 211-219): store the snapshot, recompute the raw score, and either seed
the EMA on the first finalize or blend it with `kBusyEmaAlpha`. -/
noncomputable def finishDwellChannel (ch : ChannelState) (snap : ChannelMetrics) : ChannelState :=
  let cur := computeBusyScore (kDwellMs : ℝ) snap
  { metrics := snap
    busyCurrent := cur
    busyEma := if ch.hasData then (1 - kBusyEmaAlpha) * ch.busyEma + kBusyEmaAlpha * cur else cur
    hasData := true }

/-- C5: on a channel's first finalize (`hasData = false`) the smoothed score
is seeded exactly with the raw score; on every later finalize it becomes
`(1 − α)·old + α·raw` with `α = 0.22 ∈ [0.15, 0.30]`; smoothing touches only
the derived score — the raw per-window counters are stored verbatim. -/
theorem c5_ema_smoother (ch : ChannelState) (snap : ChannelMetrics) :
    ((finishDwellChannel ch snap).busyEma =
      if ch.hasData then
        (1 - kBusyEmaAlpha) * ch.busyEma + kBusyEmaAlpha * computeBusyScore (kDwellMs : ℝ) snap
      else computeBusyScore (kDwellMs : ℝ) snap) ∧
    (finishDwellChannel ch snap).busyCurrent = computeBusyScore (kDwellMs : ℝ) snap ∧
    (finishDwellChannel ch snap).metrics = snap ∧
    (finishDwellChannel ch snap).hasData = true ∧
    kBusyEmaAlpha = 0.22 ∧ 0.15 ≤ kBusyEmaAlpha ∧ kBusyEmaAlpha ≤ 0.30 :=
  ⟨rfl, rfl, rfl, rfl, rfl, by norm_num [kBusyEmaAlpha], by norm_num [kBusyEmaAlpha]⟩

/-- Live accumulator of the active dwell window (source struct `Accum`).
The `uint16_t macHashes[kUniqueSlots]` array together with its fill counter
`macFill` is modelled as the list of the filled prefix: the source only ever
scans indices `[0, macFill)` and appends at `macFill`, so `macFill` is the
list's length. -/
structure Accum where
  frames : ℕ
  bytes : ℕ
  strong : ℕ
  unique : ℕ
  macHashes : List ℕ
deriving DecidableEq

/-- Promiscuous-callback packet type (`wifi_promiscuous_pkt_type_t`). -/
inductive PktType where
  | mgmt
  | ctrl
  | data
  | misc
deriving DecidableEq

/-- Data of one captured frame as read by the callback: the captured length
`rx_ctrl.sig_len`, the signal strength `rx_ctrl.rssi`, and the transmitter
address bytes `hdr.addr2` (six `uint8_t` values). -/
structure Frame where
  sigLen : ℕ
  rssi : ℤ
  addr2 : List ℕ
deriving DecidableEq

/-- Source `macHash`: `(uint16_t(mac[4]) << 8) | mac[5]`; the `% 256`
encodes that the address bytes are `uint8_t`. -/
def macHash (addr2 : List ℕ) : ℕ :=
  (addr2.getD 4 0 % 256) * 256 + addr2.getD 5 0 % 256

/-- Source `promiscuousCb` (lines 108-137): drop frames that are neither
management, data nor control, drop frames whose captured payload is shorter
than the 802.11 header (malformed), otherwise count the frame, its bytes and
its strength, then dedup the transmitter hash against the filled table.
All counter additions carry the wraparound of their C types. -/
def promiscuousCb (type : PktType) (f : Frame) (a : Accum) : Accum :=
  if type ≠ PktType.mgmt ∧ type ≠ PktType.data ∧ type ≠ PktType.ctrl then a
  else if f.sigLen < kHdrSize then a
  else
    let a1 : Accum :=
      { a with
        frames := (a.frames + 1) % U32
        bytes := (a.bytes + f.sigLen) % U32
        strong := if kStrongThresholdDbm ≤ f.rssi then (a.strong + 1) % U16 else a.strong }
    let h := macHash f.addr2
    if h ∈ a1.macHashes then a1
    else if a1.macHashes.length < kUniqueSlots then
      { a1 with macHashes := a1.macHashes ++ [h], unique := (a1.unique + 1) % U16 }
    else a1

/-- Source `resetAccum`: zero every counter and clear the hash table. -/
def emptyAccum : Accum := ⟨0, 0, 0, 0, []⟩

/-- C6: an invalid frame (captured payload shorter than the header, or a
type outside management/data/control) leaves the accumulator untouched — the
callback is total, so no error can be raised; a valid frame bumps
`frames` by exactly one, adds `sig_len` to `bytes`, and bumps `strong` by one
exactly when `rssi ≥ -65` (the additions are exact below the `uint32_t` and
`uint16_t` wraparound bounds, which one dwell window cannot reach). -/
theorem c6_record_step (t : PktType) (f : Frame) (a : Accum) :
    (f.sigLen < kHdrSize → promiscuousCb t f a = a) ∧
    (t = PktType.misc → promiscuousCb t f a = a) ∧
    ((t = PktType.mgmt ∨ t = PktType.data ∨ t = PktType.ctrl) → kHdrSize ≤ f.sigLen →
      a.frames + 1 < U32 → a.bytes + f.sigLen < U32 → a.strong + 1 < U16 →
      ((promiscuousCb t f a).frames = a.frames + 1 ∧
       (promiscuousCb t f a).bytes = a.bytes + f.sigLen ∧
       (promiscuousCb t f a).strong =
         (if kStrongThresholdDbm ≤ f.rssi then a.strong + 1 else a.strong))) := by
  refine ⟨?_, ?_, ?_⟩
  · intro hshort
    unfold promiscuousCb
    split_ifs with h1 h2 <;> simp_all
  · intro ht
    subst ht
    unfold promiscuousCb
    split_ifs with h1 <;> simp_all
  · intro ht hlen hf hb hs
    have hty : ¬(t ≠ PktType.mgmt ∧ t ≠ PktType.data ∧ t ≠ PktType.ctrl) := by
      rcases ht with h | h | h <;> subst h <;> simp
    have hnotshort : ¬ f.sigLen < kHdrSize := not_lt.mpr hlen
    have hfm : (a.frames + 1) % U32 = a.frames + 1 := Nat.mod_eq_of_lt hf
    have hbm : (a.bytes + f.sigLen) % U32 = a.bytes + f.sigLen := Nat.mod_eq_of_lt hb
    have hsm : (a.strong + 1) % U16 = a.strong + 1 := Nat.mod_eq_of_lt hs
    simp only [promiscuousCb, if_neg hty, if_neg hnotshort]
    split_ifs <;> simp_all

/-- C6 witness: a 60-byte data frame at −40 dBm into a reset accumulator. -/
theorem c6_record_step_witness :
    (promiscuousCb PktType.data ⟨60, -40, [1, 2, 3, 4, 5, 6]⟩ emptyAccum).frames = 1 ∧
    (promiscuousCb PktType.data ⟨60, -40, [1, 2, 3, 4, 5, 6]⟩ emptyAccum).bytes = 60 ∧
    (promiscuousCb PktType.data ⟨60, -40, [1, 2, 3, 4, 5, 6]⟩ emptyAccum).strong =
      (if kStrongThresholdDbm ≤ (-40 : ℤ) then 0 + 1 else 0) := by
  have h := (c6_record_step PktType.data ⟨60, -40, [1, 2, 3, 4, 5, 6]⟩ emptyAccum).2.2
    (Or.inr (Or.inl rfl)) (by norm_num [kHdrSize])
    (by norm_num [emptyAccum, U32]) (by norm_num [emptyAccum, U32]) (by norm_num [emptyAccum, U16])
  exact h

/-- Shape invariant tying the modelled hash list to the source's counters:
the filled prefix never exceeds the table capacity, and `unique` always
equals the fill level (both are zeroed together by `resetAccum` and
incremented together by the callback). -/
def validAccum (a : Accum) : Prop :=
  a.macHashes.length ≤ kUniqueSlots ∧ a.unique = a.macHashes.length

/-- Sequence of callback invocations folded over the accumulator, modelling
an arbitrary run of `record` calls within one dwell window. -/
def recordTrace (l : List (PktType × Frame)) (a : Accum) : Accum :=
  l.foldl (fun acc p => promiscuousCb p.1 p.2 acc) a

lemma promiscuousCb_dedup (t : PktType) (f : Frame) (a : Accum) (hv : validAccum a) :
    validAccum (promiscuousCb t f a) ∧
    a.unique ≤ (promiscuousCb t f a).unique ∧
    (macHash f.addr2 ∈ a.macHashes →
      (promiscuousCb t f a).unique = a.unique ∧
      (promiscuousCb t f a).macHashes = a.macHashes) ∧
    (macHash f.addr2 ∉ a.macHashes → a.macHashes.length < kUniqueSlots →
      (t = PktType.mgmt ∨ t = PktType.data ∨ t = PktType.ctrl) → kHdrSize ≤ f.sigLen →
      (promiscuousCb t f a).unique = a.unique + 1 ∧
      (promiscuousCb t f a).macHashes = a.macHashes ++ [macHash f.addr2]) ∧
    (kUniqueSlots ≤ a.macHashes.length →
      (promiscuousCb t f a).unique = a.unique ∧
      (promiscuousCb t f a).macHashes = a.macHashes) := by
  obtain ⟨hlen24, huni⟩ := hv
  by_cases hty : t ≠ PktType.mgmt ∧ t ≠ PktType.data ∧ t ≠ PktType.ctrl
  · have hres : promiscuousCb t f a = a := by simp [promiscuousCb, hty]
    exact ⟨⟨by simp [hres, hlen24], by simp [hres, huni]⟩, by simp [hres],
      fun _ => ⟨by simp [hres], by simp [hres]⟩,
      fun _ _ ht _ => absurd ht (by tauto),
      fun _ => ⟨by simp [hres], by simp [hres]⟩⟩
  · by_cases hshort : f.sigLen < kHdrSize
    · have hres : promiscuousCb t f a = a := by simp [promiscuousCb, hty, hshort]
      exact ⟨⟨by simp [hres, hlen24], by simp [hres, huni]⟩, by simp [hres],
        fun _ => ⟨by simp [hres], by simp [hres]⟩,
        fun _ _ _ hl => absurd hshort (not_lt.mpr hl),
        fun _ => ⟨by simp [hres], by simp [hres]⟩⟩
    · by_cases hmem : macHash f.addr2 ∈ a.macHashes
      · have hres : promiscuousCb t f a =
            { a with
              frames := (a.frames + 1) % U32
              bytes := (a.bytes + f.sigLen) % U32
              strong := if kStrongThresholdDbm ≤ f.rssi then (a.strong + 1) % U16
                        else a.strong } := by
          simp [promiscuousCb, hty, hshort, hmem]
        exact ⟨⟨by simp [hres, hlen24], by simp [hres, huni]⟩, by simp [hres],
          fun _ => ⟨by simp [hres], by simp [hres]⟩,
          fun hnm _ _ _ => absurd hmem hnm,
          fun _ => ⟨by simp [hres], by simp [hres]⟩⟩
      · by_cases hroom : a.macHashes.length < kUniqueSlots
        · have hroom24 : a.macHashes.length < 24 := by simpa [kUniqueSlots] using hroom
          have hmod : (a.unique + 1) % U16 = a.unique + 1 := by
            apply Nat.mod_eq_of_lt
            have : U16 = 65536 := by norm_num [U16]
            omega
          have hres : promiscuousCb t f a =
              { frames := (a.frames + 1) % U32
                bytes := (a.bytes + f.sigLen) % U32
                strong := if kStrongThresholdDbm ≤ f.rssi then (a.strong + 1) % U16
                          else a.strong
                unique := (a.unique + 1) % U16
                macHashes := a.macHashes ++ [macHash f.addr2] } := by
            simp [promiscuousCb, hty, hshort, hmem, hroom]
          refine ⟨⟨?_, ?_⟩, ?_, fun hm => absurd hm hmem,
            fun _ _ _ _ => ⟨?_, ?_⟩, fun hfull => absurd hroom (not_lt.mpr hfull)⟩
          · simp only [hres, List.length_append, List.length_singleton, kUniqueSlots]
            omega
          · simp only [hres, hmod, List.length_append, List.length_singleton]
            omega
          · simp only [hres, hmod]
            omega
          · simp only [hres, hmod]
          · simp only [hres]
        · have hres : promiscuousCb t f a =
              { a with
                frames := (a.frames + 1) % U32
                bytes := (a.bytes + f.sigLen) % U32
                strong := if kStrongThresholdDbm ≤ f.rssi then (a.strong + 1) % U16
                          else a.strong } := by
            simp [promiscuousCb, hty, hshort, hmem, hroom]
          exact ⟨⟨by simp [hres, hlen24], by simp [hres, huni]⟩, by simp [hres],
            fun hm => absurd hm hmem,
            fun _ hr _ _ => absurd hr hroom,
            fun _ => ⟨by simp [hres], by simp [hres]⟩⟩

lemma recordTrace_inv (l : List (PktType × Frame)) (a : Accum) (hv : validAccum a) :
    validAccum (recordTrace l a) ∧ a.unique ≤ (recordTrace l a).unique := by
  induction l generalizing a with
  | nil => exact ⟨hv, le_rfl⟩
  | cons p rest ih =>
    obtain ⟨hv1, hmono1, _, _, _⟩ := promiscuousCb_dedup p.1 p.2 a hv
    obtain ⟨hv2, hmono2⟩ := ih (promiscuousCb p.1 p.2 a) hv1
    exact ⟨hv2, le_trans hmono1 hmono2⟩

/-- C7: within one dwell window `unique` never exceeds the table capacity
`K = 24` and is non-decreasing both per `record` call and across any
sequence of calls; an already-present hash changes neither `unique` nor the
table, an absent hash with room is appended with `unique` bumped by one, and
an absent hash into a full table changes nothing (silent saturation — the
callback is total, so no error path exists).  "No change" is read, as in the
spec's dedup sentence, as no change to the dedup state (`unique` and the
table); the plain frame counters still advance for every valid frame. -/
theorem c7_unique_dedup_invariant (t : PktType) (f : Frame) (a : Accum)
    (l : List (PktType × Frame)) (hv : validAccum a) :
    (validAccum (promiscuousCb t f a) ∧
     a.unique ≤ (promiscuousCb t f a).unique ∧
     (promiscuousCb t f a).unique ≤ kUniqueSlots) ∧
    (macHash f.addr2 ∈ a.macHashes →
      (promiscuousCb t f a).unique = a.unique ∧
      (promiscuousCb t f a).macHashes = a.macHashes) ∧
    (macHash f.addr2 ∉ a.macHashes → a.macHashes.length < kUniqueSlots →
      (t = PktType.mgmt ∨ t = PktType.data ∨ t = PktType.ctrl) → kHdrSize ≤ f.sigLen →
      (promiscuousCb t f a).unique = a.unique + 1 ∧
      (promiscuousCb t f a).macHashes = a.macHashes ++ [macHash f.addr2]) ∧
    (kUniqueSlots ≤ a.macHashes.length →
      (promiscuousCb t f a).unique = a.unique ∧
      (promiscuousCb t f a).macHashes = a.macHashes) ∧
    (validAccum (recordTrace l a) ∧ a.unique ≤ (recordTrace l a).unique ∧
     (recordTrace l a).unique ≤ kUniqueSlots) := by
  obtain ⟨hv1, hmono1, hknown, hinsert, hfull⟩ := promiscuousCb_dedup t f a hv
  obtain ⟨hv2, hmono2⟩ := recordTrace_inv l a hv
  exact ⟨⟨hv1, hmono1, hv1.2 ▸ hv1.1⟩, hknown, hinsert, hfull,
    hv2, hmono2, hv2.2 ▸ hv2.1⟩

/-- C7 witness: two distinct then one repeated transmitter on a reset
accumulator; capacity, monotonicity and the insert case instantiated. -/
theorem c7_unique_dedup_invariant_witness :
    (promiscuousCb PktType.data ⟨60, -40, [1, 2, 3, 4, 5, 6]⟩ emptyAccum).unique = 0 + 1 ∧
    (recordTrace [⟨PktType.data, ⟨60, -40, [1, 2, 3, 4, 5, 6]⟩⟩,
                  ⟨PktType.mgmt, ⟨40, -80, [1, 2, 3, 4, 5, 6]⟩⟩] emptyAccum).unique ≤ kUniqueSlots := by
  refine ⟨?_, ?_⟩
  · exact ((c7_unique_dedup_invariant PktType.data ⟨60, -40, [1, 2, 3, 4, 5, 6]⟩ emptyAccum []
      (by constructor <;> simp [emptyAccum, kUniqueSlots])).2.2.1
      (by simp [emptyAccum]) (by simp [emptyAccum, kUniqueSlots])
      (Or.inr (Or.inl rfl)) (by norm_num [kHdrSize])).1
  · exact (c7_unique_dedup_invariant PktType.data ⟨60, -40, [1, 2, 3, 4, 5, 6]⟩ emptyAccum
      [⟨PktType.data, ⟨60, -40, [1, 2, 3, 4, 5, 6]⟩⟩,
       ⟨PktType.mgmt, ⟨40, -80, [1, 2, 3, 4, 5, 6]⟩⟩]
      (by constructor <;> simp [emptyAccum, kUniqueSlots])).2.2.2.2.2.2

/-- Wraparound subtraction of two `uint32_t` tick values, modelling the
source expression `now - dwellStartedMs` in `hopIfNeeded` (line 224):
C unsigned subtraction is subtraction modulo `2^32`. -/
def sub32 (a b : ℕ) : ℕ := (a % U32 + U32 - b % U32) % U32

/-- C9: for every true start/now pair of uptimes (arbitrarily large, i.e.
across any number of `uint32_t` overflows of `millis()`), the code's
wrapped subtraction of the truncated tick values equals the true elapsed
time modulo `2^32`, so the dwell-expiry comparison against `kDwellMs`
decides exactly as it would on the true elapsed time modulo `2^32`. -/
theorem c9_wraparound_elapsed (Ts Tn : ℕ) (h : Ts ≤ Tn) :
    sub32 (Tn % U32) (Ts % U32) = (Tn - Ts) % U32 ∧
    (sub32 (Tn % U32) (Ts % U32) < kDwellMs ↔ (Tn - Ts) % U32 < kDwellMs) := by
  have hU : U32 = 4294967296 := by norm_num [U32]
  have h1 : sub32 (Tn % U32) (Ts % U32) = (Tn - Ts) % U32 := by
    simp only [sub32, hU]
    omega
  exact ⟨h1, by rw [h1]⟩

/-- C9 witness: a dwell straddling the `uint32_t` overflow of `millis()`
(start shortly before wrap, now shortly after): the decision still fires. -/
theorem c9_wraparound_elapsed_witness :
    sub32 (4294967596 % U32) (4294967000 % U32) = (4294967596 - 4294967000) % U32 ∧
    (sub32 (4294967596 % U32) (4294967000 % U32) < kDwellMs ↔
      (4294967596 - 4294967000) % U32 < kDwellMs) :=
  c9_wraparound_elapsed 4294967000 4294967596 (by norm_num)

/-- Whole-pipeline state: the 13 channel slots (a total function standing
for the fixed array `channels[kChannelCount]`; only indices `0..12` are ever
touched), the scheduler's active channel, the shared live accumulator
`g_accum`, and `dwellStartedMs`. -/
structure SysState where
  channels : ℕ → ChannelState
  currentChannel : ℕ
  accum : Accum
  dwellStartedMs : ℕ

/-- Observable effects of the source's `applyChannel` (lines 152-155), with
the radio command stream and any produced fault report made explicit
outputs.  The source issues `esp_wifi_set_channel(ch, ...)` exactly once,
discards its `esp_err_t` result (`setChannelOk` is the driver's reply), and
unconditionally restamps the dwell timer with `millis()`. -/
structure ApplyResult where
  state : SysState
  commandsIssued : List ℕ
  faultReported : Bool

/-- Source `applyChannel`: one channel-set command, result ignored, dwell
timer restamped regardless. -/
def applyChannel (ch : ℕ) (setChannelOk : Bool) (now : ℕ) (s : SysState) : ApplyResult :=
  { state := { s with dwellStartedMs := now }
    commandsIssued := [ch]
    faultReported := false }

/-- Snapshot-and-score half of the source's `finishDwell` (lines 202-220):
copy the live accumulator's counters into the active channel's slot and run
the score/EMA update. -/
noncomputable def sysFinishDwell (s : SysState) : SysState :=
  let snap : ChannelMetrics := ⟨s.accum.frames, s.accum.bytes, s.accum.strong, s.accum.unique⟩
  { s with
    channels := Function.update s.channels (s.currentChannel - 1)
      (finishDwellChannel (s.channels (s.currentChannel - 1)) snap) }

/-- Source `resetAccum` acting on the pipeline state. -/
def sysResetAccum (s : SysState) : SysState := { s with accum := emptyAccum }

/-- Channel advance of `hopIfNeeded` (lines 229-230): increment and wrap
from 13 back to 1. -/
def nextChannel (c : ℕ) : ℕ := if c + 1 > kChannelCount then 1 else c + 1

/-- Source `hopIfNeeded` (lines 222-232): return early while the dwell has
not elapsed, otherwise finalize, reset the accumulator, advance the channel
and apply it.  `setChannelOk` is the radio driver's reply to the channel-set
command (discarded by the source). -/
noncomputable def hopIfNeeded (now : ℕ) (setChannelOk : Bool) (s : SysState) : SysState :=
  if sub32 now s.dwellStartedMs < kDwellMs then s
  else
    let s1 := sysFinishDwell s
    let s2 := sysResetAccum s1
    let s3 := { s2 with currentChannel := nextChannel s2.currentChannel }
    (applyChannel s3.currentChannel setChannelOk now s3).state

/-- Initial pipeline state built by `ensureWifiMonitor`: all channel slots
zeroed with `hasData = false`, channel 1 active, accumulator reset. -/
def blankChannel : ChannelState := ⟨⟨0, 0, 0, 0⟩, 0, 0, false⟩

/-- Initial whole-pipeline state. -/
def sysInit : SysState :=
  { channels := fun _ => blankChannel
    currentChannel := 1
    accum := emptyAccum
    dwellStartedMs := 0 }

/-- C3 counterexample: with a failing channel-set command the source
reports nothing upward — the `esp_err_t` result is discarded on line 153,
so no fault report exists, refuting "the failure is reported upward as a
fault to the owning collaborator". -/
theorem c3_counterexample :
    ¬ ((applyChannel 5 false 1000 sysInit).faultReported = true) := by
  simp [applyChannel]

/-- C3 as amended: a failed channel-set command is silently ignored — no
fault is reported upward, the command is issued exactly once (no internal
retry), the dwell timer is restamped to now regardless of the result, and
the whole scheduler transition is independent of whether the command
succeeded. -/
theorem c3_channel_set_failure (ch : ℕ) (ok : Bool) (now : ℕ) (s : SysState) :
    (applyChannel ch ok now s).faultReported = false ∧
    (applyChannel ch ok now s).commandsIssued = [ch] ∧
    (applyChannel ch ok now s).state.dwellStartedMs = now ∧
    applyChannel ch ok now s = applyChannel ch true now s ∧
    hopIfNeeded now ok s = hopIfNeeded now true s :=
  ⟨rfl, rfl, rfl, rfl, rfl⟩

/-- One pipeline operation: a producer `record` (the promiscuous callback)
or one consumer tick (`hopIfNeeded` with the driver's reply). -/
inductive SysStep where
  | frame (t : PktType) (f : Frame)
  | tick (now : ℕ) (setChannelOk : Bool)

/-- Effect of one pipeline operation on the whole state. -/
noncomputable def applyStep (e : SysStep) (s : SysState) : SysState :=
  match e with
  | SysStep.frame t f => { s with accum := promiscuousCb t f s.accum }
  | SysStep.tick now ok => hopIfNeeded now ok s

/-- A whole run of the pipeline: any interleaving of records and ticks. -/
noncomputable def runSteps (l : List SysStep) (s : SysState) : SysState :=
  l.foldl (fun s e => applyStep e s) s

lemma hasData_applyStep (e : SysStep) (s : SysState) (i : ℕ)
    (h : (s.channels i).hasData = true) :
    ((applyStep e s).channels i).hasData = true := by
  cases e with
  | frame t f => simpa [applyStep] using h
  | tick now ok =>
    simp only [applyStep, hopIfNeeded]
    split_ifs with hguard
    · exact h
    · by_cases hi : i = s.currentChannel - 1
      · subst hi
        simp [sysFinishDwell, sysResetAccum, applyChannel, Function.update_apply,
          finishDwellChannel]
      · simp [sysFinishDwell, sysResetAccum, applyChannel, Function.update_apply, hi, h]

/-- C10: once a channel's `hasData` flag is true it stays true across every
further pipeline operation — no record, tick, finalize, reset or channel
switch ever clears it (the only write after initialization is
`hasData = true` in `finishDwell`), so a channel that became eligible for
ranking stays eligible for the process lifetime. -/
theorem c10_hasData_persistent (l : List SysStep) (s : SysState) (i : ℕ)
    (h : (s.channels i).hasData = true) :
    ((runSteps l s).channels i).hasData = true := by
  induction l generalizing s with
  | nil => exact h
  | cons e rest ih => exact ih (applyStep e s) (hasData_applyStep e s i h)

/-- Channel slot that has already seen its first finalize. -/
def seededChannel : ChannelState := ⟨⟨0, 0, 0, 0⟩, 0, 0, true⟩

/-- Pipeline state in which every slot has data (used by the C10 witness). -/
def sysSeeded : SysState :=
  { channels := fun _ => seededChannel
    currentChannel := 1
    accum := emptyAccum
    dwellStartedMs := 0 }

/-- C10 witness: a run with an expiring tick (which rewrites slot 0 via
`finishDwell`) followed by a record keeps `hasData` true on channel 1. -/
theorem c10_hasData_persistent_witness :
    ((runSteps [SysStep.tick 300 true,
                SysStep.frame PktType.data ⟨60, -40, [1, 2, 3, 4, 5, 6]⟩] sysSeeded).channels 0).hasData
      = true :=
  c10_hasData_persistent _ sysSeeded 0 rfl

/-- Insertion step of the source's `sortTop3` inner loop (lines 248-254):
walk the filled prefix of `outIdx` and insert channel `i` before the first
entry it strictly beats (`channels[i].busyEma > channels[outIdx[pos]].busyEma`),
appending at the first empty (`-1`) slot otherwise.  The smoothed scores are
modelled as an arbitrary per-index assignment `score` (rationals stand for
the stored float values so comparisons stay decidable). -/
def insertTop (score : ℕ → ℚ) (i : ℕ) : List ℕ → List ℕ
  | [] => [i]
  | j :: rest => if score j < score i then i :: j :: rest else j :: insertTop score i rest

/-- Source `sortTop3` (lines 244-256): scan channels `0..12` in ascending
order, skip slots without data, insert each remaining one into the 3-slot
array; the shift on line 250 drops whatever falls off position 2, which is
the `take 3`.  The `-1` padding of unused slots is modelled by the list
simply being shorter. -/
def sortTop3 (hasData : ℕ → Bool) (score : ℕ → ℚ) : List ℕ :=
  ((List.range kChannelCount).filter fun i => hasData i).foldl
    (fun acc i => (insertTop score i acc).take 3) []

/-- Ranking order produced by the selection: strictly higher score first,
ties broken in favor of the lower channel index (hence the lower channel
number, the display number being index + 1). -/
def topOrder (score : ℕ → ℚ) (a b : ℕ) : Prop :=
  score b < score a ∨ (score a = score b ∧ a < b)

lemma mem_insertTop (score : ℕ → ℚ) (i x : ℕ) :
    ∀ l : List ℕ, x ∈ insertTop score i l ↔ x = i ∨ x ∈ l := by
  intro l
  induction l with
  | nil => simp [insertTop]
  | cons j rest ih =>
    by_cases h : score j < score i
    · simp [insertTop, h]
    · simp [insertTop, h, ih]
      tauto

lemma pairwise_insertTop (score : ℕ → ℚ) (i : ℕ) :
    ∀ l : List ℕ, List.Pairwise (topOrder score) l → (∀ j ∈ l, j < i) →
      List.Pairwise (topOrder score) (insertTop score i l) := by
  intro l
  induction l with
  | nil =>
    intro _ _
    simp [insertTop]
  | cons j rest ih =>
    intro hp hlt
    rw [List.pairwise_cons] at hp
    obtain ⟨hj, hrest⟩ := hp
    by_cases h : score j < score i
    · simp only [insertTop, if_pos h]
      refine List.Pairwise.cons ?_ (List.Pairwise.cons hj hrest)
      intro k hk
      rcases List.mem_cons.mp hk with hkj | hkr
      · exact hkj ▸ Or.inl h
      · rcases hj k hkr with hlt2 | ⟨heq, _⟩
        · exact Or.inl (lt_trans hlt2 h)
        · exact Or.inl (heq ▸ h)
    · simp only [insertTop, if_neg h]
      refine List.Pairwise.cons ?_ (ih hrest fun k hk => hlt k (List.mem_cons_of_mem j hk))
      intro k hk
      rcases (mem_insertTop score i k rest).mp hk with hki | hkr
      · subst hki
        rcases lt_or_eq_of_le (not_lt.mp h) with hlt2 | heq
        · exact Or.inl hlt2
        · exact Or.inr ⟨heq.symm, hlt j (List.mem_cons_self j rest)⟩
      · exact hj k hkr

lemma sortTop3_fold (score : ℕ → ℚ) (P : ℕ → Prop) :
    ∀ (l acc : List ℕ),
      List.Pairwise (· < ·) l →
      (∀ j ∈ acc, ∀ k ∈ l, j < k) →
      List.Pairwise (topOrder score) acc →
      acc.length ≤ 3 →
      (∀ j ∈ acc, P j) → (∀ k ∈ l, P k) →
      (List.Pairwise (topOrder score)
          (l.foldl (fun acc i => (insertTop score i acc).take 3) acc) ∧
        (l.foldl (fun acc i => (insertTop score i acc).take 3) acc).length ≤ 3 ∧
        ∀ j ∈ l.foldl (fun acc i => (insertTop score i acc).take 3) acc, P j) := by
  intro l
  induction l with
  | nil =>
    intro acc _ _ hpacc hlen hPacc _
    exact ⟨hpacc, hlen, hPacc⟩
  | cons i rest ih =>
    intro acc hl hdom hpacc hlen hPacc hPl
    obtain ⟨hihead, hltail⟩ := List.pairwise_cons.mp hl
    have hbelow : ∀ j ∈ acc, j < i := fun j hj => hdom j hj i (List.mem_cons_self i rest)
    have hins : List.Pairwise (topOrder score) (insertTop score i acc) :=
      pairwise_insertTop score i acc hpacc hbelow
    have hmemtake : ∀ j ∈ (insertTop score i acc).take 3, j = i ∨ j ∈ acc := fun j hj =>
      (mem_insertTop score i j acc).mp (List.take_subset 3 _ hj)
    refine ih ((insertTop score i acc).take 3) hltail ?_ ?_ ?_ ?_
      fun k hk => hPl k (List.mem_cons_of_mem i hk)
    · intro j hj k hk
      rcases hmemtake j hj with hji | hja
      · exact hji ▸ hihead k hk
      · exact hdom j hja k (List.mem_cons_of_mem i hk)
    · exact List.Pairwise.sublist (List.take_sublist 3 _) hins
    · exact le_trans (List.length_take 3 _ ▸ min_le_left 3 _) le_rfl
    · intro j hj
      rcases hmemtake j hj with hji | hja
      · exact hji ▸ hPl i (List.mem_cons_self i rest)
      · exact hPacc j hja

/-- C8: for every assignment of per-channel smoothed scores and `hasData`
flags, the top-3 selection returns at most three channels, all of which have
data and valid indices, ordered descending by smoothed score with ties
broken in favor of the lower channel number. -/
theorem c8_top3_ranking (hasData : ℕ → Bool) (score : ℕ → ℚ) :
    (sortTop3 hasData score).length ≤ 3 ∧
    (∀ i ∈ sortTop3 hasData score, hasData i = true ∧ i < kChannelCount) ∧
    List.Pairwise (topOrder score) (sortTop3 hasData score) := by
  have hfold := sortTop3_fold score (fun i => hasData i = true ∧ i < kChannelCount)
    ((List.range kChannelCount).filter fun i => hasData i) []
    ((List.pairwise_lt_range kChannelCount).filter _)
    (by simp)
    List.Pairwise.nil
    (by simp)
    (by simp)
    (fun k hk => ⟨(List.mem_filter.mp hk).2, List.mem_range.mp (List.mem_filter.mp hk).1⟩)
  exact ⟨hfold.2.1, hfold.2.2, hfold.1⟩

/-- Frame-and-byte contribution as seen by one window snapshot. -/
structure WinCount where
  frames : ℕ
  bytes : ℕ
deriving DecidableEq

/-- Atomic events on the shared accumulator, one per critical section of
the source: `record` is the locked body of `promiscuousCb` (lines 114-136),
`snapshot` the locked copy in `finishDwell` (lines 204-209), `reset` the
locked zeroing in `resetAccum` (lines 140-149).  `snapshot` and `reset` are
separate events because `hopIfNeeded` releases the lock between them
(`finishDwell(); resetAccum();`, lines 226-227), so producer `record`
calls may interleave exactly there. -/
inductive AccEv where
  | record (len : ℕ)
  | snapshot
  | reset
deriving DecidableEq

/-- Effect of one atomic event on the accumulator, also collecting the
sequence of window snapshots taken so far. -/
def stepAcc : WinCount × List WinCount → AccEv → WinCount × List WinCount
  | (c, outs), AccEv.record len => ({ frames := c.frames + 1, bytes := c.bytes + len }, outs)
  | (c, outs), AccEv.snapshot => (c, outs ++ [c])
  | (c, _outs), AccEv.reset => (⟨0, 0⟩, _outs)

/-- Run an interleaving of producer and consumer critical sections from the
zeroed accumulator. -/
def runAcc (t : List AccEv) : WinCount × List WinCount := t.foldl stepAcc (⟨0, 0⟩, [])

/-- Recognizer for producer events of a trace. -/
def isRecord : AccEv → Bool
  | AccEv.record _ => true
  | _ => false

/-- Interleaving the source permits: window 1 runs reset-record-snapshot,
then one more `record` fires in the gap between `finishDwell`'s unlock and
`resetAccum`'s lock, then the reset opens window 2 which snapshots empty. -/
def lostFrameTrace : List AccEv :=
  [AccEv.reset, AccEv.record 100, AccEv.snapshot,
   AccEv.record 50, AccEv.reset, AccEv.snapshot]

/-- C1 (failing-input evaluation): on this legal interleaving the two
window snapshots hold 1 frame in total while 2 frames were recorded — the
frame recorded between window 1's snapshot and the following reset is wiped
by the reset and attributed to no window, refuting "no frame lost": the
source's snapshot and reset are two separately locked critical sections,
not one atomic unit. -/
theorem c1_lost_frame :
    runAcc lostFrameTrace = (⟨0, 0⟩, [⟨1, 100⟩, ⟨0, 0⟩]) ∧
    ((runAcc lostFrameTrace).2.map WinCount.frames).sum = 1 ∧
    (lostFrameTrace.filter isRecord).length = 2 ∧
    ((runAcc lostFrameTrace).2.map WinCount.frames).sum ≠
      (lostFrameTrace.filter isRecord).length := by
  decide

end Bandwatch
